import Mathlib

/-!
# Verification of the `project_tools` listing filter/sort core

Shallow embedding of the repository's two core components:

* `logic/sorting.py` — the `OfferSorter` class: `_get_price_per_sqm`
  (effective price-per-area fallback chain), `sort_key` (the
  `(is_missing, value)` pair) and `sort` (stable sort of a deep copy,
  `reverse=True` for descending, unknown criterion is a no-op).
* `routers/filters.py` — the `filter_listings` endpoint: condition-list
  construction over the `Listing ⋈ Location` join with SQL null
  semantics (a comparison against NULL is never true).

Python `Decimal` values (and `date` values, which only need an order)
are modelled as rationals; Python `dict` records carrying optional
fields are modelled as structures of `Option` fields; Python `str` is
modelled as `String` with an explicit structurally-recursive `strip`.
-/

/-- An offer record as consumed by `OfferSorter` (a Python dict; the
fields the sorter reads are modelled, `listing_id` stands for the rest
of the payload and distinguishes records). A key absent from the dict
and a key holding `None` both read back as `None` via `dict.get`, so
both are `none` here. -/
structure Offer where
  listing_id : Int
  price_total_zl : Option ℚ
  price_sqm_zl : Option ℚ
  price_per_sqm_detailed : Option ℚ
  area : Option ℚ
  date_posted : Option ℚ
deriving DecidableEq, Repr, Inhabited

/-- The `SortType` enum of `logic/sorting.py`. -/
inductive SortType where
  | PRICE
  | PRICE_PER_SQM
  | DATE_POSTED
  | AREA
  | BEST_MATCH
deriving DecidableEq, Repr

/-- The `.value` string of each `SortType` member. -/
def SortType.value : SortType → String
  | .PRICE => "price"
  | .PRICE_PER_SQM => "price_per_sqm"
  | .DATE_POSTED => "date_posted"
  | .AREA => "area"
  | .BEST_MATCH => "najtrafniejsze"

/-- `SortType(sort_by)`: Python enum lookup by value; raising
`ValueError` on an unknown string is modelled as `none`. -/
def SortType.ofString (s : String) : Option SortType :=
  if s = "price" then some .PRICE
  else if s = "price_per_sqm" then some .PRICE_PER_SQM
  else if s = "date_posted" then some .DATE_POSTED
  else if s = "area" then some .AREA
  else if s = "najtrafniejsze" then some .BEST_MATCH
  else none

/-- `OfferSorter._get_price_per_sqm`: prefer `price_per_sqm_detailed`,
fall back to `price_sqm_zl`, else compute `price_total_zl / area` when
`price_total_zl is not None and area not in (None, Decimal("0"))`
(i.e. area present and non-zero; division of rationals by a non-zero
value cannot fail, so the `try/except → None` guard adds nothing). -/
def OfferSorter.get_price_per_sqm (offer : Offer) : Option ℚ :=
  match offer.price_per_sqm_detailed with
  | some price_per_sqm => some price_per_sqm
  | none =>
    match offer.price_sqm_zl with
    | some price_sqm_zl => some price_sqm_zl
    | none =>
      match offer.price_total_zl, offer.area with
      | some price_total_zl, some area =>
        if area = 0 then none else some (price_total_zl / area)
      | _, _ => none

/-- The value extracted by the branch ladder inside `sort_key` in
`OfferSorter.sort` (the `else` branch — unreachable for the four real
criteria — yields `None`). -/
def sortKeyValue (sort_type : SortType) (offer : Offer) : Option ℚ :=
  match sort_type with
  | .PRICE => offer.price_total_zl
  | .AREA => offer.area
  | .DATE_POSTED => offer.date_posted
  | .PRICE_PER_SQM => OfferSorter.get_price_per_sqm offer
  | .BEST_MATCH => none

/-- `sort_key`: returns the pair `(is_missing, value)` used as the sort
key, with `is_missing = (value is None)`. -/
def sort_key (sort_type : SortType) (offer : Offer) : Bool × Option ℚ :=
  (Option.isNone (sortKeyValue sort_type offer), sortKeyValue sort_type offer)

/-- Order on the `value` component of two keys in the same
`is_missing` class: two `None`s are equal (Python tuple comparison
stops at `==`), two present values compare as numbers.  The mixed
cases never arise for keys produced by `sort_key` (there
`is_missing = value.isNone`); they are completed so that the relation
is a total preorder: `none` acts as a top element. -/
def keyValLe : Option ℚ → Option ℚ → Bool
  | some x, some y => decide (x ≤ y)
  | some _, none => true
  | none, some _ => false
  | none, none => true

/-- Python `<` on `Bool`: `False < True`. -/
def boolLt (a b : Bool) : Bool := !a && b

/-- Python tuple order (non-strict) on the `(is_missing, value)` keys:
lexicographic, first component by `False < True`, second by value. -/
def tupleLe (x y : Bool × Option ℚ) : Bool :=
  if x.1 = y.1 then keyValLe x.2 y.2 else boolLt x.1 y.1

theorem keyValLe_refl (x : Option ℚ) : keyValLe x x = true := by
  cases x <;> simp [keyValLe]

theorem keyValLe_total (x y : Option ℚ) : keyValLe x y = true ∨ keyValLe y x = true := by
  cases x <;> cases y <;> simp [keyValLe] <;> exact le_total _ _

theorem keyValLe_trans {x y z : Option ℚ} (h₁ : keyValLe x y = true)
    (h₂ : keyValLe y z = true) : keyValLe x z = true := by
  cases x <;> cases y <;> cases z <;> simp_all [keyValLe]
  exact le_trans h₁ h₂

theorem keyValLe_antisymm {x y : Option ℚ} (h₁ : keyValLe x y = true)
    (h₂ : keyValLe y x = true) : x = y := by
  cases x <;> cases y <;> simp_all [keyValLe]
  exact le_antisymm h₁ h₂

theorem tupleLe_refl (x : Bool × Option ℚ) : tupleLe x x = true := by
  simp [tupleLe, keyValLe_refl]

theorem tupleLe_total (x y : Bool × Option ℚ) : tupleLe x y = true ∨ tupleLe y x = true := by
  rcases x with ⟨a, u⟩; rcases y with ⟨b, v⟩
  by_cases hab : a = b
  · subst hab
    simpa [tupleLe] using keyValLe_total u v
  · cases a <;> cases b <;> simp_all [tupleLe, boolLt]

theorem tupleLe_trans {x y z : Bool × Option ℚ} (h₁ : tupleLe x y = true)
    (h₂ : tupleLe y z = true) : tupleLe x z = true := by
  rcases x with ⟨a, u⟩; rcases y with ⟨b, v⟩; rcases z with ⟨c, w⟩
  cases a <;> cases b <;> cases c <;>
    simp_all [tupleLe, boolLt] <;>
    exact keyValLe_trans h₁ h₂

theorem tupleLe_antisymm {x y : Bool × Option ℚ} (h₁ : tupleLe x y = true)
    (h₂ : tupleLe y x = true) : x = y := by
  rcases x with ⟨a, u⟩; rcases y with ⟨b, v⟩
  cases a <;> cases b <;> simp_all [tupleLe, boolLt]
  · exact keyValLe_antisymm h₁ h₂
  · exact keyValLe_antisymm h₁ h₂

/-- The comparison relation `list.sort` uses under key function
`sort_key sort_type` (non-strict version; CPython's stable sort is
determined by it). -/
def sortRel (sort_type : SortType) (a b : Offer) : Prop :=
  tupleLe (sort_key sort_type a) (sort_key sort_type b) = true

instance (t : SortType) : DecidableRel (sortRel t) := fun a b =>
  inferInstanceAs (Decidable (_ = true))

instance (t : SortType) : IsTotal Offer (sortRel t) :=
  ⟨fun a b => tupleLe_total (sort_key t a) (sort_key t b)⟩

instance (t : SortType) : IsTrans Offer (sortRel t) :=
  ⟨fun _ _ _ h₁ h₂ => tupleLe_trans h₁ h₂⟩

/-- `OfferSorter.sort(offers, sort_by, order)`.  `deepcopy` is the
identity on values, so it is invisible at this level (the heap-level
model `OfferSorter.sortH` below accounts for it).  CPython's
`list.sort(key=sort_key, reverse=True)` reverses the list, sorts it
ascending with a stable sort, and reverses again — which is what the
`desc` branch does here; insertion sort is stable, hence produces the
same output as CPython's stable sort. -/
def OfferSorter.sort (offers : List Offer) (sort_by : Option String)
    (order : String) : List Offer :=
  match sort_by with
  | none => offers
  | some s =>
    if s = "najtrafniejsze" then offers
    else
      match SortType.ofString s with
      | none => offers
      | some sort_type =>
        if order = "desc" then
          (List.insertionSort (sortRel sort_type) offers.reverse).reverse
        else
          List.insertionSort (sortRel sort_type) offers

/-- Inserting an element that fails a predicate leaves the filtered
list unchanged. -/
theorem filter_orderedInsert_of_neg {α : Type} (r : α → α → Prop) [DecidableRel r]
    (p : α → Bool) (a : α) (hpa : p a = false) (l : List α) :
    (List.orderedInsert r a l).filter p = l.filter p := by
  induction l with
  | nil => simp [List.orderedInsert, hpa]
  | cons b l ih =>
    rw [List.orderedInsert]
    by_cases h : r a b
    · rw [if_pos h]
      simp [List.filter_cons, hpa]
    · rw [if_neg h]
      rw [List.filter_cons, List.filter_cons, ih]

/-- Stability of `orderedInsert` under `sortRel`: the inserted element
lands in front of all earlier elements with the same sort key, because
every element it skips over is strictly below it. -/
theorem filter_orderedInsert_key (t : SortType) (a : Offer) (l : List Offer) :
    (List.orderedInsert (sortRel t) a l).filter
        (fun x => decide (sort_key t x = sort_key t a)) =
      a :: l.filter (fun x => decide (sort_key t x = sort_key t a)) := by
  induction l with
  | nil => simp [List.orderedInsert]
  | cons b l ih =>
    rw [List.orderedInsert]
    by_cases h : sortRel t a b
    · rw [if_pos h]
      simp [List.filter_cons]
    · rw [if_neg h]
      have hb : ¬ sort_key t b = sort_key t a := by
        intro he
        exact h (show tupleLe _ _ = true by rw [he]; exact tupleLe_refl _)
      simp [List.filter_cons, hb, ih]

/-- Stability of insertion sort: for each key value `v`, the sublist of
records whose sort key equals `v` is unchanged by sorting. -/
theorem filter_insertionSort_key (t : SortType) (v : Bool × Option ℚ) (l : List Offer) :
    (List.insertionSort (sortRel t) l).filter (fun x => decide (sort_key t x = v)) =
      l.filter (fun x => decide (sort_key t x = v)) := by
  induction l with
  | nil => rfl
  | cons a l ih =>
    rw [List.insertionSort]
    by_cases hv : sort_key t a = v
    · subst hv
      rw [filter_orderedInsert_key t a _, ih, List.filter_cons]
      simp
    · rw [filter_orderedInsert_of_neg _ _ _ (by simp [hv]) _, ih, List.filter_cons]
      simp [hv]

/-- The `(is_missing, value)` sort key a call
`OfferSorter.sort offers sort_by order` associates to a record: the key
computed by `sort_key` for the criterion actually used, and the
constant "missing" key when no real criterion is in effect (absent,
best-match, or unknown `sort_by`, where the sort is a passthrough). -/
def keyFor (sort_by : Option String) (offer : Offer) : Bool × Option ℚ :=
  match sort_by with
  | none => (true, none)
  | some s =>
    match SortType.ofString s with
    | some t => sort_key t offer
    | none => (true, none)

/-- C4: the sort is stable — for every input list, criterion and
direction, the records whose `(is-missing, value)` sort keys are equal
form the same sublist (hence the same relative order) in the output as
in the input.  For `desc` this holds because CPython reverses, sorts
ascending with a stable sort, and reverses back. -/
theorem sort_stable_filter_eq (offers : List Offer) (sort_by : Option String)
    (order : String) (v : Bool × Option ℚ) :
    (OfferSorter.sort offers sort_by order).filter
        (fun x => decide (keyFor sort_by x = v)) =
      offers.filter (fun x => decide (keyFor sort_by x = v)) := by
  cases sort_by with
  | none => rfl
  | some s =>
    simp only [OfferSorter.sort]
    by_cases hnaj : s = "najtrafniejsze"
    · rw [if_pos hnaj]
    · rw [if_neg hnaj]
      cases hos : SortType.ofString s with
      | none => simp only [hos]
      | some t =>
        simp only [hos, keyFor]
        by_cases hord : order = "desc"
        · rw [if_pos hord, List.filter_reverse, filter_insertionSort_key,
            List.filter_reverse, List.reverse_reverse]
        · rw [if_neg hord, filter_insertionSort_key]

/-- C8: any criterion other than the four real ones — an absent
criterion, the best-match criterion `"najtrafniejsze"`, or any unknown
string — makes `sort` return the records in their original input
order; the unknown-enum-value `ValueError` is caught locally (modelled
by `SortType.ofString` returning `none`), so this is a recovery, not
an error. -/
theorem unknown_criterion_identity (offers : List Offer) (order : String) :
    OfferSorter.sort offers none order = offers ∧
      ∀ s : String,
        s ∉ (["price", "price_per_sqm", "date_posted", "area"] : List String) →
        OfferSorter.sort offers (some s) order = offers := by
  refine ⟨rfl, fun s hs => ?_⟩
  simp only [List.mem_cons, List.not_mem_nil, or_false, not_or] at hs
  obtain ⟨h1, h2, h3, h4⟩ := hs
  simp only [OfferSorter.sort]
  by_cases hnaj : s = "najtrafniejsze"
  · rw [if_pos hnaj]
  · rw [if_neg hnaj]
    have hO : SortType.ofString s = none := by
      simp [SortType.ofString, h1, h2, h3, h4, hnaj]
    simp only [hO]

/-- Concrete offers reused by the closed witnesses below (the first
two mirror records from the repository's sorting tests; `offerC` has a
missing price). -/
def offerA : Offer := ⟨1, some 450000, some 9000, some 9000, some 50, some 100⟩

def offerB : Offer := ⟨2, some 300000, some (20020 / 3), some (20020 / 3), some 45, some 120⟩

def offerC : Offer := ⟨3, none, none, none, some 45, some 130⟩

/-- Witness for C8 at the unknown criterion `"xyz"`. -/
theorem unknown_criterion_identity_witness :
    "xyz" ∉ (["price", "price_per_sqm", "date_posted", "area"] : List String) ∧
      OfferSorter.sort [offerA, offerB] (some "xyz") "asc" = [offerA, offerB] :=
  ⟨by decide, (unknown_criterion_identity [offerA, offerB] "asc").2 "xyz" (by decide)⟩

/-- If `x` sorts no later than `y` and `x`'s key is missing, then `y`'s
key is missing too (missing keys are maximal in the key order). -/
theorem sortRel_missing {t : SortType} {x y : Offer} (h : sortRel t x y)
    (hx : (sort_key t x).1 = true) : (sort_key t y).1 = true := by
  unfold sortRel tupleLe at h
  rw [hx] at h
  cases hyv : (sort_key t y).1 with
  | true => rfl
  | false =>
    rw [hyv] at h
    simp [boolLt] at h

/-- A real criterion string is not the best-match string. -/
theorem ofString_real_ne_naj {s : String} {t : SortType}
    (hs : SortType.ofString s = some t) (hreal : t ≠ SortType.BEST_MATCH) :
    s ≠ "najtrafniejsze" := by
  intro h
  subst h
  rw [SortType.ofString] at hs
  simp at hs
  exact hreal hs.symm

/-- Under a real criterion, ascending sort is insertion sort by the
key relation. -/
theorem sort_asc_eq (offers : List Offer) {s : String} {t : SortType}
    (hs : SortType.ofString s = some t) (hreal : t ≠ SortType.BEST_MATCH) :
    OfferSorter.sort offers (some s) "asc" = List.insertionSort (sortRel t) offers := by
  have hnaj := ofString_real_ne_naj hs hreal
  simp [OfferSorter.sort, hnaj, hs]

/-- Under a real criterion, descending sort is reverse–sort–reverse
(CPython's stable `reverse=True`). -/
theorem sort_desc_eq (offers : List Offer) {s : String} {t : SortType}
    (hs : SortType.ofString s = some t) (hreal : t ≠ SortType.BEST_MATCH) :
    OfferSorter.sort offers (some s) "desc" =
      (List.insertionSort (sortRel t) offers.reverse).reverse := by
  have hnaj := ofString_real_ne_naj hs hreal
  simp [OfferSorter.sort, hnaj, hs]

/-- C5: for every real criterion, records with a missing sort key are
placed after all records with present keys when sorting ascending, and
before all of them when sorting descending (the key pair is ordered
primarily by `is_missing` with `false` before `true`, and descending
reverses the ascending arrangement). -/
theorem sort_missing_value_placement (offers : List Offer) (s : String) (t : SortType)
    (hs : SortType.ofString s = some t) (hreal : t ≠ SortType.BEST_MATCH) :
    ((OfferSorter.sort offers (some s) "asc").Pairwise fun x y =>
        (sort_key t x).1 = true → (sort_key t y).1 = true) ∧
      ((OfferSorter.sort offers (some s) "desc").Pairwise fun x y =>
        (sort_key t y).1 = true → (sort_key t x).1 = true) := by
  constructor
  · rw [sort_asc_eq offers hs hreal]
    exact (List.sorted_insertionSort _ offers).imp fun h hx => sortRel_missing h hx
  · rw [sort_desc_eq offers hs hreal, List.pairwise_reverse]
    exact (List.sorted_insertionSort _ offers.reverse).imp fun h hx => sortRel_missing h hx

/-- Two sorted permutations of each other whose sort keys are pairwise
distinct are equal (with distinct keys the key order is antisymmetric
on the list's elements). -/
theorem eq_of_perm_sorted_nodup_keys (t : SortType) :
    ∀ {l₁ l₂ : List Offer}, List.Perm l₁ l₂ → l₁.Sorted (sortRel t) → l₂.Sorted (sortRel t) →
      (l₁.map (sort_key t)).Nodup → l₁ = l₂ := by
  intro l₁
  induction l₁ with
  | nil =>
    intro l₂ hp _ _ _
    exact hp.nil_eq
  | cons a t₁ ih =>
    intro l₂ hp hs₁ hs₂ hnd
    cases l₂ with
    | nil => exact absurd hp.symm.nil_eq (by simp)
    | cons b t₂ =>
      have hab : a = b := by
        by_cases he : a = b
        · exact he
        · have hb₁ : b ∈ a :: t₁ := hp.symm.subset (List.mem_cons_self b t₂)
          have ha₂ : a ∈ b :: t₂ := hp.subset (List.mem_cons_self a t₁)
          have hmem_b : b ∈ t₁ := by
            rcases List.mem_cons.mp hb₁ with h' | h'
            · exact absurd h'.symm he
            · exact h'
          have hmem_a : a ∈ t₂ := by
            rcases List.mem_cons.mp ha₂ with h' | h'
            · exact absurd h' he
            · exact h'
          have hrab : sortRel t a b := (List.sorted_cons.mp hs₁).1 b hmem_b
          have hrba : sortRel t b a := (List.sorted_cons.mp hs₂).1 a hmem_a
          exact List.inj_on_of_nodup_map hnd (List.mem_cons_self a t₁) hb₁
            (tupleLe_antisymm hrab hrba)
      subst hab
      have ht : t₁ = t₂ := ih hp.cons_inv (List.sorted_cons.mp hs₁).2
        (List.sorted_cons.mp hs₂).2 (List.nodup_cons.mp (by simpa using hnd)).2
      rw [ht]

/-- Two offers with equal prices but different payloads: a tie for the
`price` criterion. -/
def offerD : Offer := ⟨4, some 100, none, none, none, none⟩

def offerE : Offer := ⟨5, some 100, none, none, none, none⟩

/-- C3 counterexample: on two records with equal prices, descending
sort keeps the input order (Python's `reverse=True` sort is stable),
while the full reversal of the ascending order swaps them — so
descending is NOT the full reversal of ascending on this input. -/
theorem sort_desc_not_full_reversal :
    ¬ (OfferSorter.sort [offerD, offerE] (some "price") "desc" =
        (OfferSorter.sort [offerD, offerE] (some "price") "asc").reverse) := by
  decide

/-- C3 (amended): for every real criterion, sorting descending equals
the full reversal of the ascending sort PROVIDED no two records share
an equal `(is-missing, value)` sort key; with tied keys the descending
order keeps tied records in input order (stability) and is not the
full reversal. -/
theorem sort_desc_eq_reverse_asc_of_nodup_keys (offers : List Offer) (s : String)
    (t : SortType) (hs : SortType.ofString s = some t) (hreal : t ≠ SortType.BEST_MATCH)
    (hnd : (offers.map (sort_key t)).Nodup) :
    OfferSorter.sort offers (some s) "desc" =
      (OfferSorter.sort offers (some s) "asc").reverse := by
  rw [sort_asc_eq offers hs hreal, sort_desc_eq offers hs hreal]
  congr 1
  apply eq_of_perm_sorted_nodup_keys t
  · exact (List.perm_insertionSort _ _).trans
      ((List.reverse_perm offers).trans (List.perm_insertionSort _ offers).symm)
  · exact List.sorted_insertionSort _ _
  · exact List.sorted_insertionSort _ _
  · have hperm : List.Perm ((List.insertionSort (sortRel t) offers.reverse).map (sort_key t))
        (offers.map (sort_key t)) :=
      ((List.perm_insertionSort _ _).trans (List.reverse_perm offers)).map _
    exact hperm.nodup_iff.mpr hnd

/-- Witness for the amended C3: two records with distinct prices. -/
theorem sort_desc_eq_reverse_asc_of_nodup_keys_witness :
    ([offerA, offerB].map (sort_key SortType.PRICE)).Nodup ∧
      OfferSorter.sort [offerA, offerB] (some "price") "desc" =
        (OfferSorter.sort [offerA, offerB] (some "price") "asc").reverse :=
  ⟨by decide, sort_desc_eq_reverse_asc_of_nodup_keys [offerA, offerB] "price"
    SortType.PRICE (by decide) (by decide) (by decide)⟩

/-- The spec's effective price-per-area, written from the spec's words
("prefer `price_per_area_detailed` if present; else
`price_per_area_basic`; else compute `price_total / area` if both are
present and area is non-zero; else undefined / missing"), for
comparison with the source's `OfferSorter.get_price_per_sqm`.  The
spec's field names map to the source's: `price_per_area_detailed` is
`price_per_sqm_detailed`, `price_per_area_basic` is `price_sqm_zl`,
`price_total` is `price_total_zl`. -/
def effectivePricePerAreaSpec (offer : Offer) : Option ℚ :=
  match offer.price_per_sqm_detailed with
  | some v => some v
  | none =>
    match offer.price_sqm_zl with
    | some v => some v
    | none =>
      match offer.price_total_zl, offer.area with
      | some p, some a => if a ≠ 0 then some (p / a) else none
      | _, _ => none

/-- C2: the effective price-per-area equals `price_per_sqm_detailed`
when present, else `price_sqm_zl` when present, else
`price_total / area` when price is present and area present and
non-zero, else missing; in particular a record with both per-area
fields null, `price_total = 300000` and `area = 0` yields missing (no
computed value, no error — the function is total). -/
theorem effective_price_per_sqm_fallback_chain :
    (∀ offer : Offer, OfferSorter.get_price_per_sqm offer = effectivePricePerAreaSpec offer) ∧
      OfferSorter.get_price_per_sqm ⟨0, some 300000, none, none, some 0, none⟩ = none := by
  constructor
  · intro offer
    obtain ⟨i, pt, ps, pd, ar, dp⟩ := offer
    cases pd <;> cases ps <;> cases pt <;> cases ar <;>
      simp [OfferSorter.get_price_per_sqm, effectivePricePerAreaSpec, ite_not]
  · rfl

/-- A heap of offer records.  Python object identity is modelled by an
address (an index into the heap); `deepcopy(offers)` in
`OfferSorter.sort` allocates fresh addresses holding equal records, so
the returned list is structurally independent of the caller's. -/
structure Heap where
  recs : List Offer
deriving DecidableEq, Repr

/-- Dereference an address (out-of-range reads give a default record;
the theorems only use in-range addresses). -/
def Heap.read (h : Heap) (p : Nat) : Offer := (h.recs[p]?).getD default

/-- Mutate the record at an address. -/
def Heap.write (h : Heap) (p : Nat) (offer : Offer) : Heap := ⟨h.recs.set p offer⟩

/-- `copy.deepcopy` on a list of records: each record is duplicated
into a fresh address at the end of the heap, and the returned list
holds the fresh addresses in input order. -/
def Heap.deepcopy (h : Heap) : List Nat → Heap × List Nat
  | [] => (h, [])
  | p :: ps =>
    let h₁ : Heap := ⟨h.recs ++ [h.read p]⟩
    let rest := h₁.deepcopy ps
    (rest.1, h.recs.length :: rest.2)

/-- Heap-level `OfferSorter.sort`: every path first deep-copies the
input list, then (for a real criterion) stably sorts the fresh
addresses by the key of the record each address holds. -/
def OfferSorter.sortH (h : Heap) (ps : List Nat) (sort_by : Option String)
    (order : String) : Heap × List Nat :=
  let copied := h.deepcopy ps
  match sort_by with
  | none => copied
  | some s =>
    if s = "najtrafniejsze" then copied
    else
      match SortType.ofString s with
      | none => copied
      | some sort_type =>
        if order = "desc" then
          (copied.1, (List.insertionSort
            (fun p q => sortRel sort_type (copied.1.read p) (copied.1.read q))
            copied.2.reverse).reverse)
        else
          (copied.1, List.insertionSort
            (fun p q => sortRel sort_type (copied.1.read p) (copied.1.read q))
            copied.2)

/-- Deep copy only appends to the heap: the original region is intact. -/
theorem deepcopy_take (h : Heap) (ps : List Nat) :
    (h.deepcopy ps).1.recs.take h.recs.length = h.recs := by
  induction ps generalizing h with
  | nil => simp [Heap.deepcopy]
  | cons p ps ih =>
    rw [Heap.deepcopy]
    have ih' := ih ⟨h.recs ++ [h.read p]⟩
    simp only [List.length_append, List.length_singleton] at ih'
    have hmin : h.recs.length = min h.recs.length (h.recs.length + 1) := by omega
    rw [hmin, ← List.take_take, ih', List.take_left' rfl]

/-- Every address returned by deep copy is fresh (at or beyond the old
heap end). -/
theorem deepcopy_fresh (h : Heap) (ps : List Nat) :
    ∀ q ∈ (h.deepcopy ps).2, h.recs.length ≤ q := by
  induction ps generalizing h with
  | nil => simp [Heap.deepcopy]
  | cons p ps ih =>
    intro q hq
    rw [Heap.deepcopy] at hq
    rcases List.mem_cons.mp hq with h' | h'
    · omega
    · have := ih ⟨h.recs ++ [h.read p]⟩ q h'
      simp only [List.length_append, List.length_singleton] at this
      omega

/-- Reads below the preserved prefix agree. -/
theorem read_below_take {h₁ h₂ : Heap} (hpre : h₂.recs.take h₁.recs.length = h₁.recs)
    {q : Nat} (hq : q < h₁.recs.length) : h₂.read q = h₁.read q := by
  unfold Heap.read
  rw [← hpre, List.getElem?_take_of_lt hq]

/-- The fresh addresses hold copies of the records the input addresses
held, in order. -/
theorem deepcopy_read (h : Heap) (ps : List Nat) (hv : ∀ p ∈ ps, p < h.recs.length) :
    (h.deepcopy ps).2.map (h.deepcopy ps).1.read = ps.map h.read := by
  induction ps generalizing h with
  | nil => simp [Heap.deepcopy]
  | cons p ps ih =>
    rw [Heap.deepcopy]
    simp only [List.map_cons, List.cons.injEq]
    have hlen : (Heap.mk (h.recs ++ [h.read p])).recs.length = h.recs.length + 1 := by
      simp
    constructor
    · have hq : h.recs.length < (Heap.mk (h.recs ++ [h.read p])).recs.length := by
        simp
      rw [read_below_take (deepcopy_take ⟨h.recs ++ [h.read p]⟩ ps) hq]
      unfold Heap.read
      rw [List.getElem?_append_right (Nat.le_refl _)]
      simp
    · have hv' : ∀ p' ∈ ps, p' < (Heap.mk (h.recs ++ [h.read p])).recs.length := by
        intro p' hp'
        have := hv p' (List.mem_cons_of_mem p hp')
        simp only [hlen]
        omega
      rw [ih ⟨h.recs ++ [h.read p]⟩ hv']
      apply List.map_congr_left
      intro p' hp'
      unfold Heap.read
      rw [List.getElem?_append_left (hv p' (List.mem_cons_of_mem p hp'))]

/-- Every path of `sortH` returns the deep-copied heap unchanged. -/
theorem sortH_fst (h : Heap) (ps : List Nat) (sort_by : Option String) (order : String) :
    (OfferSorter.sortH h ps sort_by order).1 = (h.deepcopy ps).1 := by
  unfold OfferSorter.sortH
  cases sort_by with
  | none => rfl
  | some s =>
    by_cases hnaj : s = "najtrafniejsze"
    · simp [hnaj]
    · simp only [if_neg hnaj]
      rcases hos : SortType.ofString s with _ | t <;> simp only [hos]
      by_cases hord : order = "desc" <;> simp [hord]

/-- The returned address list is a permutation of the deep copy's. -/
theorem sortH_snd_perm (h : Heap) (ps : List Nat) (sort_by : Option String) (order : String) :
    List.Perm (OfferSorter.sortH h ps sort_by order).2 (h.deepcopy ps).2 := by
  unfold OfferSorter.sortH
  cases sort_by with
  | none => exact List.Perm.refl _
  | some s =>
    by_cases hnaj : s = "najtrafniejsze"
    · simp only [if_pos hnaj]
      exact List.Perm.refl _
    · simp only [if_neg hnaj]
      rcases hos : SortType.ofString s with _ | t <;> simp only [hos]
      · exact List.Perm.refl _
      · by_cases hord : order = "desc" <;> simp only [hord, if_pos, if_neg, if_true, if_false]
        · exact ((List.reverse_perm _).trans (List.perm_insertionSort _ _)).trans
            (List.reverse_perm _)
        · exact List.perm_insertionSort _ _

/-- C6: `sort` never mutates its input and returns deep copies: the
input heap region is unchanged, every returned address is fresh
(disjoint from all valid input addresses), the records at the returned
addresses are (a permutation of) copies of the input's records, and
writing through any returned address leaves every input record
untouched. -/
theorem sort_no_mutation (h : Heap) (ps : List Nat) (sort_by : Option String)
    (order : String) :
    ((OfferSorter.sortH h ps sort_by order).1.recs.take h.recs.length = h.recs) ∧
      (∀ q ∈ (OfferSorter.sortH h ps sort_by order).2, h.recs.length ≤ q) ∧
      ((∀ p ∈ ps, p < h.recs.length) →
        List.Perm ((OfferSorter.sortH h ps sort_by order).2.map
          (OfferSorter.sortH h ps sort_by order).1.read) (ps.map h.read)) ∧
      (∀ q ∈ (OfferSorter.sortH h ps sort_by order).2, ∀ offer : Offer,
        ∀ p, p < h.recs.length →
          ((OfferSorter.sortH h ps sort_by order).1.write q offer).read p = h.read p) := by
  refine ⟨?_, ?_, ?_, ?_⟩
  · rw [sortH_fst]
    exact deepcopy_take h ps
  · intro q hq
    exact deepcopy_fresh h ps q ((sortH_snd_perm h ps sort_by order).subset hq)
  · intro hv
    rw [sortH_fst, ← deepcopy_read h ps hv]
    exact (sortH_snd_perm h ps sort_by order).map _
  · intro q hq offer p hp
    have hfresh : h.recs.length ≤ q :=
      deepcopy_fresh h ps q ((sortH_snd_perm h ps sort_by order).subset hq)
    rw [sortH_fst]
    unfold Heap.write Heap.read
    rw [List.getElem?_set_ne (by omega : q ≠ p)]
    have := @read_below_take h (h.deepcopy ps).1 (deepcopy_take h ps) p hp
    unfold Heap.read at this
    exact this

/-- Witness for C6 at a one-record heap: the copied contents match and
writing through the fresh address leaves the original record readable
unchanged. -/
theorem sort_no_mutation_witness :
    (∀ p ∈ ([0] : List Nat), p < (Heap.mk [offerA]).recs.length) ∧
      List.Perm ((OfferSorter.sortH ⟨[offerA]⟩ [0] (some "price") "asc").2.map
        (OfferSorter.sortH ⟨[offerA]⟩ [0] (some "price") "asc").1.read)
        (([0] : List Nat).map (Heap.mk [offerA]).read) ∧
      ((OfferSorter.sortH ⟨[offerA]⟩ [0] (some "price") "asc").1.write 1 offerD).read 0 =
        (Heap.mk [offerA]).read 0 :=
  ⟨by decide,
    (sort_no_mutation ⟨[offerA]⟩ [0] (some "price") "asc").2.2.1 (by decide),
    (sort_no_mutation ⟨[offerA]⟩ [0] (some "price") "asc").2.2.2 1 (by decide) offerD 0
      (by decide)⟩

/-- Witness for C5 at a concrete list containing a missing-price
record, sorted by `price`. -/
theorem sort_missing_value_placement_witness :
    SortType.ofString "price" = some SortType.PRICE ∧
      ((OfferSorter.sort [offerC, offerA, offerB] (some "price") "asc").Pairwise fun x y =>
          (sort_key SortType.PRICE x).1 = true → (sort_key SortType.PRICE y).1 = true) ∧
        ((OfferSorter.sort [offerC, offerA, offerB] (some "price") "desc").Pairwise fun x y =>
          (sort_key SortType.PRICE y).1 = true → (sort_key SortType.PRICE x).1 = true) :=
  ⟨by decide,
    (sort_missing_value_placement [offerC, offerA, offerB] "price" SortType.PRICE
      (by decide) (by decide)).1,
    (sort_missing_value_placement [offerC, offerA, offerB] "price" SortType.PRICE
      (by decide) (by decide)).2⟩

/-! ## The filter endpoint (`routers/filters.py`, `filter_listings`) -/

/-- A row of the `listing` table (`models/models.py`); `Decimal`
columns are rationals, `date_posted` a rational date ordinal. -/
structure Listing where
  listing_id : Int
  location_id : Int
  building_id : Int
  owner_id : Int
  features_id : Int
  rooms : Option Int
  area : Option ℚ
  price_total_zl : Option ℚ
  price_sqm_zl : Option ℚ
  price_per_sqm_detailed : Option ℚ
  date_posted : Option ℚ
  photo_count : Option Int
  url : Option String
  image_url : Option String
  description_text : Option String
deriving DecidableEq, Repr

/-- A row of the `location` table. -/
structure Location where
  location_id : Int
  city : Option String
  locality : Option String
  city_district : Option String
  street : Option String
  full_address : Option String
  latitude : Option ℚ
  longitude : Option ℚ
deriving DecidableEq, Repr

/-- `PriceRange` of `schemas/filter.py`: independently optional
bounds. -/
structure PriceRange where
  min : Option ℚ
  max : Option ℚ
deriving DecidableEq, Repr

/-- `FilterRequest` of `schemas/filter.py` (the `name` field is
documented as "not used in filtering"). -/
structure FilterRequest where
  name : Option String
  price_total : Option PriceRange
  price_per_sqm : Option PriceRange
  rooms : Option (List Int)
  city : Option String
  city_district : Option String
deriving DecidableEq, Repr

/-- Python `str.strip()` (structural recursion so that concrete values
kernel-reduce): drop whitespace from both ends. -/
def stripChars (s : List Char) : List Char :=
  ((s.dropWhile Char.isWhitespace).reverse.dropWhile Char.isWhitespace).reverse

/-- `str.strip()` on the `String` model. -/
def pyStrip (s : String) : String := String.mk (stripChars s.data)

/-- SQL `column >= bound` where the column is nullable: a comparison
against NULL is not TRUE, so the row is not selected. -/
def sqlGe (v : Option ℚ) (bound : ℚ) : Bool :=
  match v with
  | some x => decide (bound ≤ x)
  | none => false

/-- SQL `column <= bound` on a nullable column. -/
def sqlLe (v : Option ℚ) (bound : ℚ) : Bool :=
  match v with
  | some x => decide (x ≤ bound)
  | none => false

/-- SQL `column == value` on a nullable text column (case-sensitive
string equality; NULL never matches). -/
def sqlEqStr (v : Option String) (s : String) : Bool :=
  match v with
  | some x => x == s
  | none => false

/-- SQL `column IN (values)` on a nullable column (NULL never
matches). -/
def sqlIn (v : Option Int) (xs : List Int) : Bool :=
  match v with
  | some x => xs.contains x
  | none => false

/-- A filter condition over the `Listing ⋈ Location` join. -/
abbrev Cond := Listing → Location → Bool

/-- The `price_total` range block of `filter_listings`: one condition
appended per given bound. -/
def priceTotalConditions (filter_data : FilterRequest) : List Cond :=
  match filter_data.price_total with
  | none => []
  | some pr =>
    (match pr.min with
      | some mn => [fun l _ => sqlGe l.price_total_zl mn]
      | none => []) ++
    (match pr.max with
      | some mx => [fun l _ => sqlLe l.price_total_zl mx]
      | none => [])

/-- The `price_per_sqm` block of `filter_listings`: build
`price_sqm_match` / `price_detailed_match` according to which bounds
are given (each an `and_` of an `isnot(None)` guard and the
comparisons), then append their `or_` — or nothing when no bound is
given. -/
def pricePerSqmConditions (filter_data : FilterRequest) : List Cond :=
  match filter_data.price_per_sqm with
  | none => []
  | some pr =>
    match pr.min, pr.max with
    | some mn, some mx =>
      [fun l _ =>
        (l.price_sqm_zl.isSome && sqlGe l.price_sqm_zl mn && sqlLe l.price_sqm_zl mx) ||
        (l.price_per_sqm_detailed.isSome && sqlGe l.price_per_sqm_detailed mn &&
          sqlLe l.price_per_sqm_detailed mx)]
    | some mn, none =>
      [fun l _ =>
        (l.price_sqm_zl.isSome && sqlGe l.price_sqm_zl mn) ||
        (l.price_per_sqm_detailed.isSome && sqlGe l.price_per_sqm_detailed mn)]
    | none, some mx =>
      [fun l _ =>
        (l.price_sqm_zl.isSome && sqlLe l.price_sqm_zl mx) ||
        (l.price_per_sqm_detailed.isSome && sqlLe l.price_per_sqm_detailed mx)]
    | none, none => []

/-- The rooms block: an `IN` condition when a non-empty list is given. -/
def roomsConditions (filter_data : FilterRequest) : List Cond :=
  match filter_data.rooms with
  | none => []
  | some rs => if rs.length > 0 then [fun l _ => sqlIn l.rooms rs] else []

/-- The city block: `Location.city == filter_data.city.strip()` when
the value is non-None and truthy (non-blank) after stripping. -/
def cityConditions (filter_data : FilterRequest) : List Cond :=
  match filter_data.city with
  | none => []
  | some c =>
    if pyStrip c ≠ "" then [fun _ loc => sqlEqStr loc.city (pyStrip c)] else []

/-- The city_district block, identical in shape to the city block. -/
def districtConditions (filter_data : FilterRequest) : List Cond :=
  match filter_data.city_district with
  | none => []
  | some c =>
    if pyStrip c ≠ "" then [fun _ loc => sqlEqStr loc.city_district (pyStrip c)] else []

/-- The full condition list of `filter_listings`, in construction
order. -/
def conditions (filter_data : FilterRequest) : List Cond :=
  priceTotalConditions filter_data ++ pricePerSqmConditions filter_data ++
    roomsConditions filter_data ++ cityConditions filter_data ++
    districtConditions filter_data

/-- The inner join `Listing ⋈ Location` on
`Listing.location_id == Location.location_id`. -/
def joinRows (listings : List Listing) (locations : List Location) :
    List (Listing × Location) :=
  listings.flatMap fun l =>
    (locations.filter fun loc => loc.location_id == l.location_id).map fun loc => (l, loc)

/-- The rows selected by the search query: the conjunction of all
conditions is applied as the `WHERE` clause when any condition exists
(no `WHERE` clause at all otherwise, so every joined row is
returned). -/
def matchedRows (listings : List Listing) (locations : List Location)
    (filter_data : FilterRequest) : List (Listing × Location) :=
  if (conditions filter_data).isEmpty then joinRows listings locations
  else (joinRows listings locations).filter fun row =>
    (conditions filter_data).all fun c => c row.1 row.2

/-- `filter_listings`: the row query and the count query are built
with the same join and the same conditions.  The result pairs each
matching listing with its joined location (the response-model
conversion copies fields one-to-one and is omitted). -/
def filter_listings (listings : List Listing) (locations : List Location)
    (filter_data : FilterRequest) : List (Listing × Location) × Nat :=
  (matchedRows listings locations filter_data,
    (matchedRows listings locations filter_data).length)

/-- Every returned row satisfies every built condition. -/
theorem all_conditions_of_mem (listings : List Listing) (locations : List Location)
    (filter_data : FilterRequest) (row : Listing × Location)
    (hrow : row ∈ (filter_listings listings locations filter_data).1) :
    ∀ c ∈ conditions filter_data, c row.1 row.2 = true := by
  intro c hc
  unfold filter_listings matchedRows at hrow
  simp only at hrow
  rcases he : (conditions filter_data).isEmpty with _ | _
  · rw [he, if_neg (by simp)] at hrow
    have := (List.mem_filter.mp hrow).2
    exact List.all_eq_true.mp this c hc
  · exact absurd hc (by simp [List.isEmpty_iff.mp he])

/-- Replace the `name` field of a request. -/
def FilterRequest.setName (f : FilterRequest) (n : Option String) : FilterRequest :=
  ⟨n, f.price_total, f.price_per_sqm, f.rooms, f.city, f.city_district⟩

/-- Replace the `price_per_sqm` field of a request. -/
def FilterRequest.setPricePerSqm (f : FilterRequest) (pr : Option PriceRange) :
    FilterRequest :=
  ⟨f.name, f.price_total, pr, f.rooms, f.city, f.city_district⟩

/-- Replace the `city` field of a request. -/
def FilterRequest.setCity (f : FilterRequest) (c : Option String) : FilterRequest :=
  ⟨f.name, f.price_total, f.price_per_sqm, f.rooms, c, f.city_district⟩

/-- Replace the `city_district` field of a request. -/
def FilterRequest.setDistrict (f : FilterRequest) (c : Option String) : FilterRequest :=
  ⟨f.name, f.price_total, f.price_per_sqm, f.rooms, f.city, c⟩

/-- Requests building equal condition lists produce equal results. -/
theorem filter_listings_congr (listings : List Listing) (locations : List Location)
    {f₁ f₂ : FilterRequest} (h : conditions f₁ = conditions f₂) :
    filter_listings listings locations f₁ = filter_listings listings locations f₂ := by
  unfold filter_listings matchedRows
  rw [h]

/-- C10: the search result does not depend on the `name` field of the
request — two requests that differ only in `name` return the same
listings, in the same order, with the same total. -/
theorem filter_independent_of_name (listings : List Listing) (locations : List Location)
    (f : FilterRequest) (n₁ n₂ : Option String) :
    filter_listings listings locations (f.setName n₁) =
      filter_listings listings locations (f.setName n₂) := rfl

/-- A true SQL `>=` on a nullable column exhibits a value meeting the
bound. -/
theorem sqlGe_true {v : Option ℚ} {b : ℚ} (h : sqlGe v b = true) :
    ∃ x, v = some x ∧ b ≤ x := by
  cases v with
  | none => simp [sqlGe] at h
  | some x => exact ⟨x, rfl, by simpa [sqlGe] using h⟩

/-- A true SQL `<=` on a nullable column exhibits a value meeting the
bound. -/
theorem sqlLe_true {v : Option ℚ} {b : ℚ} (h : sqlLe v b = true) :
    ∃ x, v = some x ∧ x ≤ b := by
  cases v with
  | none => simp [sqlLe] at h
  | some x => exact ⟨x, rfl, by simpa [sqlLe] using h⟩

/-- `v` lies within every bound actually given by the range. -/
def withinGiven (pr : PriceRange) (v : ℚ) : Prop :=
  (∀ mn, pr.min = some mn → mn ≤ v) ∧ (∀ mx, pr.max = some mx → v ≤ mx)

/-- C1: when a price-per-area range is present, a returned listing has
at least one of `price_sqm_zl` / `price_per_sqm_detailed` non-null and
within every given bound (the two per-field clauses are OR-ed); and
when no bound is given, no clause is added — the block imposes no
constraint at all. -/
theorem price_per_sqm_filter_or_semantics (listings : List Listing)
    (locations : List Location) (filter_data : FilterRequest) (pr : PriceRange)
    (hpr : filter_data.price_per_sqm = some pr) :
    (∀ row ∈ (filter_listings listings locations filter_data).1,
        pr.min ≠ none ∨ pr.max ≠ none →
        (∃ v, row.1.price_sqm_zl = some v ∧ withinGiven pr v) ∨
          (∃ v, row.1.price_per_sqm_detailed = some v ∧ withinGiven pr v)) ∧
      (pr.min = none → pr.max = none →
        filter_listings listings locations filter_data =
          filter_listings listings locations (filter_data.setPricePerSqm none)) := by
  constructor
  · intro row hrow hb
    rcases hmin : pr.min with _ | mn <;> rcases hmax : pr.max with _ | mx
    · rw [hmin, hmax] at hb
      simp at hb
    · -- max only
      have hc : (fun (l : Listing) (_ : Location) =>
          (l.price_sqm_zl.isSome && sqlLe l.price_sqm_zl mx) ||
          (l.price_per_sqm_detailed.isSome && sqlLe l.price_per_sqm_detailed mx)) ∈
          conditions filter_data := by
        simp [conditions, pricePerSqmConditions, hpr, hmin, hmax, List.mem_append]
      have ht := all_conditions_of_mem listings locations filter_data row hrow _ hc
      simp only [Bool.or_eq_true, Bool.and_eq_true] at ht
      rcases ht with ⟨_, h⟩ | ⟨_, h⟩
      · obtain ⟨v, hv, hle⟩ := sqlLe_true h
        exact Or.inl ⟨v, hv, fun mn' h' => absurd (hmin ▸ h') (by simp),
          fun mx' h' => by rw [hmax] at h'; exact (Option.some.inj h') ▸ hle⟩
      · obtain ⟨v, hv, hle⟩ := sqlLe_true h
        exact Or.inr ⟨v, hv, fun mn' h' => absurd (hmin ▸ h') (by simp),
          fun mx' h' => by rw [hmax] at h'; exact (Option.some.inj h') ▸ hle⟩
    · -- min only
      have hc : (fun (l : Listing) (_ : Location) =>
          (l.price_sqm_zl.isSome && sqlGe l.price_sqm_zl mn) ||
          (l.price_per_sqm_detailed.isSome && sqlGe l.price_per_sqm_detailed mn)) ∈
          conditions filter_data := by
        simp [conditions, pricePerSqmConditions, hpr, hmin, hmax, List.mem_append]
      have ht := all_conditions_of_mem listings locations filter_data row hrow _ hc
      simp only [Bool.or_eq_true, Bool.and_eq_true] at ht
      rcases ht with ⟨_, h⟩ | ⟨_, h⟩
      · obtain ⟨v, hv, hge⟩ := sqlGe_true h
        exact Or.inl ⟨v, hv, fun mn' h' => by
            rw [hmin] at h'
            exact (Option.some.inj h') ▸ hge,
          fun mx' h' => absurd (hmax ▸ h') (by simp)⟩
      · obtain ⟨v, hv, hge⟩ := sqlGe_true h
        exact Or.inr ⟨v, hv, fun mn' h' => by
            rw [hmin] at h'
            exact (Option.some.inj h') ▸ hge,
          fun mx' h' => absurd (hmax ▸ h') (by simp)⟩
    · -- both bounds
      have hc : (fun (l : Listing) (_ : Location) =>
          (l.price_sqm_zl.isSome && sqlGe l.price_sqm_zl mn && sqlLe l.price_sqm_zl mx) ||
          (l.price_per_sqm_detailed.isSome && sqlGe l.price_per_sqm_detailed mn &&
            sqlLe l.price_per_sqm_detailed mx)) ∈ conditions filter_data := by
        simp [conditions, pricePerSqmConditions, hpr, hmin, hmax, List.mem_append]
      have ht := all_conditions_of_mem listings locations filter_data row hrow _ hc
      simp only [Bool.or_eq_true, Bool.and_eq_true] at ht
      rcases ht with ⟨⟨_, hg⟩, hl⟩ | ⟨⟨_, hg⟩, hl⟩
      · obtain ⟨v, hv, hge⟩ := sqlGe_true hg
        rw [hv] at hl
        have hle : v ≤ mx := by simpa [sqlLe] using hl
        exact Or.inl ⟨v, hv, fun mn' h' => by
            rw [hmin] at h'
            exact (Option.some.inj h') ▸ hge,
          fun mx' h' => by
            rw [hmax] at h'
            exact (Option.some.inj h') ▸ hle⟩
      · obtain ⟨v, hv, hge⟩ := sqlGe_true hg
        rw [hv] at hl
        have hle : v ≤ mx := by simpa [sqlLe] using hl
        exact Or.inr ⟨v, hv, fun mn' h' => by
            rw [hmin] at h'
            exact (Option.some.inj h') ▸ hge,
          fun mx' h' => by
            rw [hmax] at h'
            exact (Option.some.inj h') ▸ hle⟩
  · intro hmin hmax
    apply filter_listings_congr
    simp [conditions, priceTotalConditions, pricePerSqmConditions, roomsConditions,
      cityConditions, districtConditions, FilterRequest.setPricePerSqm, hpr, hmin, hmax]

/-- When every listing has exactly one matching location row, the join
has exactly one row per listing, in listing order. -/
theorem joinRows_map_fst (listings : List Listing) (locations : List Location)
    (hdb : ∀ l ∈ listings,
      (locations.filter fun loc => loc.location_id == l.location_id).length = 1) :
    (joinRows listings locations).map Prod.fst = listings := by
  induction listings with
  | nil => rfl
  | cons l ls ih =>
    unfold joinRows
    rw [List.flatMap_cons, List.map_append, List.map_map]
    obtain ⟨loc, hloc⟩ :=
      List.length_eq_one.mp (hdb l (List.mem_cons_self l ls))
    rw [hloc]
    have ihr := ih fun l' hl' => hdb l' (List.mem_cons_of_mem l hl')
    unfold joinRows at ihr
    rw [ihr]
    rfl

/-- C7: a specification with no constraints set (every dimension
absent, or present with no bounds / an empty list / a blank-after-trim
string) returns the full listing set: the count equals the number of
listings and the returned rows are exactly the listings (each with its
location), in order. -/
theorem empty_filter_returns_all (listings : List Listing) (locations : List Location)
    (filter_data : FilterRequest)
    (h₁ : filter_data.price_total = none ∨ filter_data.price_total = some ⟨none, none⟩)
    (h₂ : filter_data.price_per_sqm = none ∨ filter_data.price_per_sqm = some ⟨none, none⟩)
    (h₃ : filter_data.rooms = none ∨ filter_data.rooms = some [])
    (h₄ : ∀ c, filter_data.city = some c → pyStrip c = "")
    (h₅ : ∀ c, filter_data.city_district = some c → pyStrip c = "")
    (hdb : ∀ l ∈ listings,
      (locations.filter fun loc => loc.location_id == l.location_id).length = 1) :
    (filter_listings listings locations filter_data).1.map Prod.fst = listings ∧
      (filter_listings listings locations filter_data).2 = listings.length := by
  have e₁ : priceTotalConditions filter_data = [] := by
    rcases h₁ with h | h <;> simp [priceTotalConditions, h]
  have e₂ : pricePerSqmConditions filter_data = [] := by
    rcases h₂ with h | h <;> simp [pricePerSqmConditions, h]
  have e₃ : roomsConditions filter_data = [] := by
    rcases h₃ with h | h <;> simp [roomsConditions, h]
  have e₄ : cityConditions filter_data = [] := by
    rcases hcity : filter_data.city with _ | c
    · simp [cityConditions, hcity]
    · simp [cityConditions, hcity, h₄ c hcity]
  have e₅ : districtConditions filter_data = [] := by
    rcases hd : filter_data.city_district with _ | c
    · simp [districtConditions, hd]
    · simp [districtConditions, hd, h₅ c hd]
  have hc : conditions filter_data = [] := by
    unfold conditions
    rw [e₁, e₂, e₃, e₄, e₅]
    rfl
  have hm : (filter_listings listings locations filter_data).1 = joinRows listings locations := by
    unfold filter_listings matchedRows
    rw [hc]
    rfl
  constructor
  · rw [hm]
    exact joinRows_map_fst listings locations hdb
  · show (matchedRows listings locations filter_data).length = listings.length
    have hm' : matchedRows listings locations filter_data = joinRows listings locations := hm
    have hlen := congrArg List.length (joinRows_map_fst listings locations hdb)
    rw [List.length_map] at hlen
    rw [hm', hlen]

/-- Concrete rows for the filter witnesses. -/
def loc1 : Location := ⟨10, some "Warszawa", none, some "Mokotów", none, none, none, none⟩

def loc2 : Location := ⟨20, some "Kraków", none, some "Podgórze", none, none, none, none⟩

def listing1 : Listing :=
  ⟨1, 10, 1, 1, 1, some 3, some 50, some 450000, some 9000, some 9000, some 100,
    none, none, none, none⟩

def listing2 : Listing :=
  ⟨2, 20, 2, 2, 2, some 2, some 45, some 300000, none, some 7000, some 120,
    none, none, none, none⟩

/-- The all-absent filter request. -/
def emptyFilter : FilterRequest := ⟨none, none, none, none, none, none⟩

/-- Witness for C7 on a two-listing database. -/
theorem empty_filter_returns_all_witness :
    (filter_listings [listing1, listing2] [loc1, loc2] emptyFilter).1.map Prod.fst =
        [listing1, listing2] ∧
      (filter_listings [listing1, listing2] [loc1, loc2] emptyFilter).2 = 2 :=
  empty_filter_returns_all [listing1, listing2] [loc1, loc2] emptyFilter
    (Or.inl rfl) (Or.inl rfl) (Or.inl rfl)
    (fun c h => absurd h (by simp [emptyFilter]))
    (fun c h => absurd h (by simp [emptyFilter]))
    (by decide)

/-- Appending one more condition to the predicate refines the matched
rows by exactly that condition (conditions are conjoined, so their
order is irrelevant). -/
theorem filter_split_cond (rows : List (Listing × Location)) (A B : List Cond) (c : Cond) :
    (if (A ++ c :: B).isEmpty then rows
      else rows.filter fun row => (A ++ c :: B).all fun c' => c' row.1 row.2) =
      (if (A ++ B).isEmpty then rows
        else rows.filter fun row => (A ++ B).all fun c' => c' row.1 row.2).filter
        fun row => c row.1 row.2 := by
  rw [if_neg (by simp)]
  rcases hAB : (A ++ B).isEmpty with _ | _
  · rw [if_neg (by simp [hAB])]
    rw [List.filter_filter]
    apply List.filter_congr
    intro row _
    rw [List.all_append, List.all_cons, List.all_append, Bool.and_left_comm]
  · obtain ⟨hA, hB⟩ := List.append_eq_nil.mp (List.isEmpty_iff.mp hAB)
    subst hA
    subst hB
    rw [if_pos rfl]
    apply List.filter_congr
    intro row _
    simp

/-- C9: city and district filters are whitespace-trimmed, then matched
by case-sensitive exact string equality against the joined location's
`city` / `city_district` (SQL `==`, under which a NULL column never
matches): two filter values with equal trims — e.g. with and without
surrounding whitespace — behave identically, a non-blank value refines
the result by exactly the equality-with-trimmed-value test (no case
normalization), and a blank-after-trim value imposes no constraint. -/
theorem city_district_trim_exact_match (listings : List Listing)
    (locations : List Location) (f : FilterRequest) :
    (∀ c₁ c₂ : String, pyStrip c₁ = pyStrip c₂ →
        filter_listings listings locations (f.setCity (some c₁)) =
          filter_listings listings locations (f.setCity (some c₂))) ∧
      (∀ c₁ c₂ : String, pyStrip c₁ = pyStrip c₂ →
        filter_listings listings locations (f.setDistrict (some c₁)) =
          filter_listings listings locations (f.setDistrict (some c₂))) ∧
      (∀ c : String, pyStrip c ≠ "" →
        (filter_listings listings locations (f.setCity (some c))).1 =
          ((filter_listings listings locations (f.setCity none)).1.filter
            fun row => sqlEqStr row.2.city (pyStrip c))) ∧
      (∀ c : String, pyStrip c ≠ "" →
        (filter_listings listings locations (f.setDistrict (some c))).1 =
          ((filter_listings listings locations (f.setDistrict none)).1.filter
            fun row => sqlEqStr row.2.city_district (pyStrip c))) ∧
      (∀ c : String, pyStrip c = "" →
        filter_listings listings locations (f.setCity (some c)) =
          filter_listings listings locations (f.setCity none)) ∧
      (∀ c : String, pyStrip c = "" →
        filter_listings listings locations (f.setDistrict (some c)) =
          filter_listings listings locations (f.setDistrict none)) := by
  refine ⟨?_, ?_, ?_, ?_, ?_, ?_⟩
  · intro c₁ c₂ h
    apply filter_listings_congr
    simp [conditions, priceTotalConditions, pricePerSqmConditions, roomsConditions,
      cityConditions, districtConditions, FilterRequest.setCity, h]
  · intro c₁ c₂ h
    apply filter_listings_congr
    simp [conditions, priceTotalConditions, pricePerSqmConditions, roomsConditions,
      cityConditions, districtConditions, FilterRequest.setDistrict, h]
  · intro c hne
    show matchedRows listings locations (f.setCity (some c)) =
      (matchedRows listings locations (f.setCity none)).filter
        fun row => sqlEqStr row.2.city (pyStrip c)
    have hcs : conditions (f.setCity (some c)) =
        (priceTotalConditions f ++ (pricePerSqmConditions f ++ roomsConditions f)) ++
          ((fun _ loc => sqlEqStr loc.city (pyStrip c)) : Cond) :: districtConditions f := by
      simp [conditions, priceTotalConditions, pricePerSqmConditions, roomsConditions,
        cityConditions, districtConditions, FilterRequest.setCity, hne]
    have hcn : conditions (f.setCity none) =
        (priceTotalConditions f ++ (pricePerSqmConditions f ++ roomsConditions f)) ++
          districtConditions f := by
      simp [conditions, priceTotalConditions, pricePerSqmConditions, roomsConditions,
        cityConditions, districtConditions, FilterRequest.setCity]
    unfold matchedRows
    rw [hcs, hcn]
    exact filter_split_cond _ _ _ _
  · intro c hne
    show matchedRows listings locations (f.setDistrict (some c)) =
      (matchedRows listings locations (f.setDistrict none)).filter
        fun row => sqlEqStr row.2.city_district (pyStrip c)
    have hcs : conditions (f.setDistrict (some c)) =
        (priceTotalConditions f ++ (pricePerSqmConditions f ++
          (roomsConditions f ++ cityConditions f))) ++
          ((fun _ loc => sqlEqStr loc.city_district (pyStrip c)) : Cond) :: [] := by
      simp [conditions, priceTotalConditions, pricePerSqmConditions, roomsConditions,
        cityConditions, districtConditions, FilterRequest.setDistrict, hne]
    have hcn : conditions (f.setDistrict none) =
        (priceTotalConditions f ++ (pricePerSqmConditions f ++
          (roomsConditions f ++ cityConditions f))) ++ [] := by
      simp [conditions, priceTotalConditions, pricePerSqmConditions, roomsConditions,
        cityConditions, districtConditions, FilterRequest.setDistrict]
    unfold matchedRows
    rw [hcs, hcn]
    exact filter_split_cond _ _ _ _
  · intro c hb
    apply filter_listings_congr
    simp [conditions, priceTotalConditions, pricePerSqmConditions, roomsConditions,
      cityConditions, districtConditions, FilterRequest.setCity, hb]
  · intro c hb
    apply filter_listings_congr
    simp [conditions, priceTotalConditions, pricePerSqmConditions, roomsConditions,
      cityConditions, districtConditions, FilterRequest.setDistrict, hb]

/-- Witness for C9: surrounding whitespace does not change the result,
and the non-blank city filter refines the unconstrained result by the
exact-match test. -/
theorem city_district_trim_exact_match_witness :
    pyStrip " Warszawa " = pyStrip "Warszawa" ∧
      filter_listings [listing1, listing2] [loc1, loc2]
          (emptyFilter.setCity (some " Warszawa ")) =
        filter_listings [listing1, listing2] [loc1, loc2]
          (emptyFilter.setCity (some "Warszawa")) ∧
      (filter_listings [listing1, listing2] [loc1, loc2]
          (emptyFilter.setCity (some "Warszawa"))).1 =
        ((filter_listings [listing1, listing2] [loc1, loc2]
          (emptyFilter.setCity none)).1.filter
            fun row => sqlEqStr row.2.city (pyStrip "Warszawa")) :=
  ⟨by decide,
    (city_district_trim_exact_match [listing1, listing2] [loc1, loc2]
      emptyFilter).1 " Warszawa " "Warszawa" (by decide),
    (city_district_trim_exact_match [listing1, listing2] [loc1, loc2]
      emptyFilter).2.2.1 "Warszawa" (by decide)⟩

/-- A request constraining only the price-per-area range. -/
def rangeFilter : FilterRequest :=
  emptyFilter.setPricePerSqm (some ⟨some (8000 : ℚ), some 9500⟩)

/-- Witness for C1: with range `[8000, 9500]`, `listing1`
(`price_sqm_zl = 9000`) is returned and one of its per-area fields is
within every given bound. -/
theorem price_per_sqm_filter_or_semantics_witness :
    (listing1, loc1) ∈ (filter_listings [listing1, listing2] [loc1, loc2] rangeFilter).1 ∧
      ((∃ v, listing1.price_sqm_zl = some v ∧ withinGiven ⟨some 8000, some 9500⟩ v) ∨
        (∃ v, listing1.price_per_sqm_detailed = some v ∧
          withinGiven ⟨some 8000, some 9500⟩ v)) :=
  ⟨by decide,
    (price_per_sqm_filter_or_semantics [listing1, listing2] [loc1, loc2] rangeFilter
      ⟨some 8000, some 9500⟩ rfl).1 (listing1, loc1) (by decide) (by simp)⟩
